import Mathlib

/-!
Verification development for the snmalloc allocator core (`src/mem/alloc.h`).

We shallowly embed the pagemap encoding, the `external_pointer` walk, the
remote-cache posting algorithm, the message-queue draining loop, the
small/medium deallocation bookkeeping and the safety checks, and prove the
specification's claims about them.  Addresses and sizes are natural numbers;
machine words never overflow in the modelled regimes (all quantities stay
far below 2^64, matching `size_t` arithmetic in the source).

Components of the repository that are referenced by `alloc.h` but whose
sources are not available (`sizeclasstable.h`, `pagemap.h`, `largealloc.h`,
`slab.h`, `bits.h`, the MPSC queue) are modelled from the specification
text; each such definition carries a doc comment starting with
`Modelled from the spec:`.
-/

set_option maxHeartbeats 1000000

namespace SnmallocModel

/-! ### Build-time constants (spec §3, defaults) -/

def SUPERSLAB_BITS : Nat := 24

def SUPERSLAB_SIZE : Nat := 2 ^ SUPERSLAB_BITS

def SLAB_BITS : Nat := 16

def SLAB_SIZE : Nat := 2 ^ SLAB_BITS

def OS_PAGE_SIZE : Nat := 4096

def PMNotOurs : Nat := 0

def PMSuperslab : Nat := 1

def PMMediumslab : Nat := 2

/-- `(void*)-1`, the all-ones pointer returned by `external_pointer<End>`
for unknown addresses, as a 64-bit unsigned value. -/
def MAX_PTR : Nat := 2 ^ 64 - 1

/-! ### Pagemap model

The pagemap is a flat map from superslab index (`address / SUPERSLAB_SIZE`)
to a one-byte tag.  We model it as a function `Nat → Nat`. -/

def PM : Type := Nat → Nat

/-- `Pagemap::set(p, x)`: write tag `x` at the superslab index of byte
address `p`.  Modelled from the spec: `pagemap.h` is not under `src/`;
spec §4.2 fixes `set(addr, u8)` with `addr` rounded down to
`SUPERSLAB_SIZE`. -/
def pmSet (pm : PM) (p v : Nat) : PM :=
  fun j => if j = p / SUPERSLAB_SIZE then v else pm j

/-- `Pagemap::set_range(p, x, count)`: write tag `x` at `count` consecutive
superslab indices starting at the index of `p`.  Modelled from the spec:
`pagemap.h` is not under `src/`; spec §4.2 fixes `set_range(addr, u8,
count)` on consecutive superslab-aligned slots. -/
def pmSetRange (pm : PM) (p v run : Nat) : PM :=
  fun j => if p / SUPERSLAB_SIZE ≤ j ∧ j < p / SUPERSLAB_SIZE + run then v else pm j

/-- Binary logarithm with explicit structural fuel, so that the kernel can
evaluate it on literals.  `log2fuel f n = ⌊log₂ n⌋` whenever `n < 2 ^ f`. -/
def log2fuel : Nat → Nat → Nat
  | 0, _ => 0
  | f + 1, n => if 2 ≤ n then log2fuel f (n / 2) + 1 else 0

/-- `bits::next_pow2_bits(size)` = `⌈log₂ size⌉`.  Modelled from the spec:
`bits.h` is not under `src/`; spec §4.2/§4.6 fix `k = ⌈log₂ size⌉`.  Fuel 64
covers every `size_t` value. -/
def next_pow2_bits (n : Nat) : Nat :=
  if n ≤ 1 then 0 else log2fuel 64 (n - 1) + 1

/-- The redirect-slide loop of `SuperslabMap::set_large_size`
(`alloc.h:109-116`): iteration `i` writes tag `64 + i + SUPERSLAB_BITS`
over a run of `2^i` superslab slots starting at byte address `ss`, then
advances `ss` past the run.  `count` is the remaining number of
iterations. -/
def set_large_slide : PM → Nat → Nat → Nat → PM
  | pm, _, _, 0 => pm
  | pm, ss, i, c + 1 =>
    set_large_slide
      (pmSetRange pm ss (64 + i + SUPERSLAB_BITS) (2 ^ i))
      (ss + SUPERSLAB_SIZE * 2 ^ i) (i + 1) c

/-- `SuperslabMap::set_large_size(p, size)` (`alloc.h:104-118`): write
`size_bits` at the head index, then lay the redirect slide over the
following superslab slots (`size_bits - SUPERSLAB_BITS` loop iterations),
then write the head again. -/
def set_large_size (pm : PM) (p size : Nat) : PM :=
  let size_bits := next_pow2_bits size
  let pm1 := pmSet pm p size_bits
  let pm2 := set_large_slide pm1 (p + SUPERSLAB_SIZE) 0 (size_bits - SUPERSLAB_BITS)
  pmSet pm2 p size_bits

/-- The write-set asserted by the specification sentence for
`set_large_size` (spec §4.2): `i` running from `1` to
`k − SUPERSLAB_BITS − 1`, redirect value `64 + i + SUPERSLAB_BITS − 1`,
across `2^i` consecutive slots following the head.  This definition follows
the spec's words, to be compared with `set_large_size` translated from the
source. -/
def claimed_slide : PM → Nat → Nat → Nat → PM
  | pm, _, _, 0 => pm
  | pm, ss, i, c + 1 =>
    claimed_slide
      (pmSetRange pm ss (64 + i + SUPERSLAB_BITS - 1) (2 ^ i))
      (ss + SUPERSLAB_SIZE * 2 ^ i) (i + 1) c

/-- The whole claimed write-set for `set_large_size` per spec §4.2:
head gets `k`; then the claimed slide with `i` from `1` to
`k − SUPERSLAB_BITS − 1`. -/
def set_large_size_claimed (pm : PM) (p size : Nat) : PM :=
  let k := next_pow2_bits size
  let pm1 := pmSet pm p k
  claimed_slide pm1 (p + SUPERSLAB_SIZE) 1 (k - SUPERSLAB_BITS - 1)

/-! ### Size-class table

`sizeclasstable.h` is not under `src/`.  The spec (§3, §4.1) fixes only the
contract: a fixed table of representative sizes, `size_to_sizeclass(n)`
total, returning an index or a sentinel `≥ NUM_SIZECLASSES` meaning
"large", rounding up to the minimal class whose size is `≥ n`.  We model
the table as a parameter `T : Nat → Nat` (class index to representative
byte size) and derive the lookup from it. -/

/-- Bounded linear search: the least `c` in `[c0, c0 + k)` with
`s ≤ T c`, or `c0 + k` if there is none. -/
def sc_search (T : Nat → Nat) (s : Nat) : Nat → Nat → Nat
  | 0, c => c
  | k + 1, c => if s ≤ T c then c else sc_search T s k (c + 1)

/-- Modelled from the spec: `size_to_sizeclass(n)` returns the minimal
class whose representative size is `≥ n`, or the sentinel `num` when `n`
is larger than every class size ("large"). -/
def size_to_sizeclass (T : Nat → Nat) (num s : Nat) : Nat :=
  sc_search T s num 0

/-- Modelled from the spec: `size_to_sizeclass_const` is the
compile-time-evaluable form of the same function (spec §4.1: both return
the same index). -/
def size_to_sizeclass_const (T : Nat → Nat) (num s : Nat) : Nat :=
  size_to_sizeclass T num s

/-- Modelled from the spec: `sizeclass_to_size(c)` is the representative
byte size of class `c`. -/
def sizeclass_to_size (T : Nat → Nat) (c : Nat) : Nat := T c

/-- A concrete instance of the size-class table used to exercise the
parametric theorems on concrete inputs: class `c` represents
`16 * (c + 1)` bytes. -/
def tableWit : Nat → Nat := fun c => 16 * (c + 1)

/-- `round_by_sizeclass(rsize, offset)`: the greatest multiple of `rsize`
that is `≤ offset`.  Modelled from the spec: `sizeclasstable.h` is not
under `src/`; spec §4.1 fixes this meaning. -/
def round_by_sizeclass (rsize offset : Nat) : Nat :=
  offset / rsize * rsize

/-- `is_multiple_of_sizeclass(rsize, offset)`: the modular-arithmetic
"start of object" test used by `medium_dealloc`.  Modelled from the spec:
`sizeclasstable.h` is not under `src/`; spec §9 says the medium path "uses
a modular-arithmetic check". -/
def is_multiple_of_sizeclass (rsize offset : Nat) : Bool :=
  decide (offset % rsize = 0)

/-! ### `external_pointer` (`alloc.h:405-460`, `alloc.h:680-689`) -/

inductive Boundary
  | Start
  | End
deriving DecidableEq

/-- The metadata `external_pointer` reads: the pagemap tag per superslab
index, the `Metaslab::sizeclass` per slab index (for `PMSuperslab`), and
the `Mediumslab` sizeclass per superslab index (for `PMMediumslab`). -/
structure PMState where
  pm : PM
  metaSC : Nat → Nat
  medSC : Nat → Nat

/-- `Allocator::external_pointer(p, sizeclass, end_point)`
(`alloc.h:680-689`): recover the cell boundary from an interior address
given the slab's last byte `end_point`.  The `size_t` subtractions wrap
modulo `2^64` in C (`end_point - rsize + 1` may pass below zero before the
final subtraction brings the value back); we compute the signed value and
reduce once at the end, which yields the same residue as C's
wrap-at-every-step. -/
def external_pointer_sc (T : Nat → Nat) (loc : Boundary) (p sc end_point : Nat) : Nat :=
  let rsize := sizeclass_to_size T sc
  let end_point_correction : Int :=
    if loc = Boundary.End then (end_point : Int) else (end_point : Int) - rsize + 1
  let offset_from_end := end_point - p
  let end_to_end := round_by_sizeclass rsize offset_from_end
  ((end_point_correction - end_to_end) % (2 : Int) ^ 64).toNat

/-- The redirect-slide walk of `external_pointer` (`alloc.h:437-442`):
while the tag exceeds 64, step `ss` back by `2^(tag - 64)` bytes and
re-read the tag.  The C loop is unbounded; fuel 64 covers every valid
slide (at most one step per bit of the offset, and offsets are below
`2^64`). -/
def pm_walk (pm : PM) : Nat → Nat → Nat → Nat × Nat
  | 0, ss, size => (ss, size)
  | fuel + 1, ss, size =>
    if 64 < size then
      let ss2 := ss - 2 ^ (size - 64)
      pm_walk pm fuel ss2 (pm (ss2 / SUPERSLAB_SIZE))
    else (ss, size)

/-- `Allocator::external_pointer<location>(p)` (`alloc.h:405-460`). -/
def external_pointer (T : Nat → Nat) (loc : Boundary) (st : PMState) (p : Nat) : Nat :=
  let size := st.pm (p / SUPERSLAB_SIZE)
  let super := p / SUPERSLAB_SIZE * SUPERSLAB_SIZE
  if size = PMSuperslab then
    let slab := p / SLAB_SIZE * SLAB_SIZE
    let sc := st.metaSC (p / SLAB_SIZE)
    external_pointer_sc T loc p sc (slab + SLAB_SIZE - 1)
  else if size = PMMediumslab then
    external_pointer_sc T loc p (st.medSC (p / SUPERSLAB_SIZE)) (super + SUPERSLAB_SIZE - 1)
  else
    let r := pm_walk st.pm 64 super size
    if r.2 = 0 then
      if loc = Boundary.End then MAX_PTR else 0
    else if loc = Boundary.Start then r.1
    else (r.1 + 2 ^ r.2 - 1) % 2 ^ 64

/-- A live small allocation at base `B` of allocated size `S`, as far as
`external_pointer` observes it: some small class `sc` has representative
size `S`; the pagemap tags `B`'s superslab `PMSuperslab`; the metaslab of
`B`'s slab records `sc`; the whole object lies in one slab; and the cell
grid is anchored at the slab end (slab layout is modelled from the spec:
`slab.h` is not under `src/`, and spec §4.1 says `round_by_sizeclass`
recovers cell boundaries from the slab end). -/
def SmallLive (T : Nat → Nat) (st : PMState) (B S : Nat) : Prop :=
  ∃ sc,
    sizeclass_to_size T sc = S ∧ 0 < S ∧
    st.pm (B / SUPERSLAB_SIZE) = PMSuperslab ∧
    st.metaSC (B / SLAB_SIZE) = sc ∧
    B / SLAB_SIZE = (B + S - 1) / SLAB_SIZE ∧
    S ∣ (B / SLAB_SIZE * SLAB_SIZE + SLAB_SIZE - B)

/-- A live medium allocation at base `B` of allocated size `S`: analogous,
with cells anchored at the mediumslab end (consistent with the
`is_multiple_of_sizeclass` check in `medium_dealloc`,
`alloc.h:992-999`). -/
def MediumLive (T : Nat → Nat) (st : PMState) (B S : Nat) : Prop :=
  ∃ sc,
    sizeclass_to_size T sc = S ∧ 0 < S ∧
    st.pm (B / SUPERSLAB_SIZE) = PMMediumslab ∧
    st.medSC (B / SUPERSLAB_SIZE) = sc ∧
    B / SUPERSLAB_SIZE = (B + S - 1) / SUPERSLAB_SIZE ∧
    S ∣ (B / SUPERSLAB_SIZE * SUPERSLAB_SIZE + SUPERSLAB_SIZE - B)

/-- A live large allocation at base `B` of allocated (rounded) size
`S = 2^k`: `B` is superslab-aligned and the pagemap holds the head tag `k`
and the redirect slide exactly as `set_large_size` lays them out. -/
def LargeLive (st : PMState) (B S : Nat) : Prop :=
  ∃ k,
    SUPERSLAB_BITS ≤ k ∧ k ≤ 64 ∧ S = 2 ^ k ∧
    SUPERSLAB_SIZE ∣ B ∧
    st.pm (B / SUPERSLAB_SIZE) = k ∧
    (∀ d i, 2 ^ i ≤ d → d < 2 ^ (i + 1) → i < k - SUPERSLAB_BITS →
      st.pm (B / SUPERSLAB_SIZE + d) = 64 + i + SUPERSLAB_BITS)

/-- A concrete `PMState` used to exercise the `external_pointer` theorems:
one superslab at address 0, metaslab sizeclass 0 everywhere. -/
def stWit : PMState :=
  ⟨fun j => if j = 0 then PMSuperslab else PMNotOurs, fun _ => 0, fun _ => 0⟩

/-! ### SAFE_CLIENT checks (`alloc.h:395-401`, `alloc.h:992-999`)

`safe_client = true` models compiling with `SNMALLOC_SAFE_CLIENT`
defined.  Both checks sit inside `#ifndef SNMALLOC_SAFE_CLIENT`.  The
functions return `true` when `error(...)` would be reached. -/

/-- The "must be start of object" check on the large path of
`Allocator::dealloc(void*)` (`alloc.h:395-400`): with the flag undefined,
abort when the tag exceeds 64 (a redirect, i.e. an interior superslab) or
`p` is not the superslab base. -/
def dealloc_unknown_start_check (safe_client : Bool) (tag super p : Nat) : Bool :=
  if safe_client then false
  else decide (64 < tag) || decide (super ≠ p)

/-- The "must be start of object" check in `Allocator::medium_dealloc`
(`alloc.h:992-999`): with the flag undefined, abort when
`slab + SUPERSLAB_SIZE - p` is not a multiple of the class size. -/
def medium_dealloc_check (safe_client : Bool) (rsize slab p : Nat) : Bool :=
  if safe_client then false
  else !is_multiple_of_sizeclass rsize (slab + SUPERSLAB_SIZE - p)

/-! ### Large allocation failure path (`alloc.h:748-766`, `alloc.h:1029-1051`) -/

inductive AllowReserve
  | YesReserve
  | NoReserve
deriving DecidableEq

/-- `LargeAlloc::alloc(large_class, size)` distilled to its failure
behaviour.  Modelled from the spec: `largealloc.h` is not under `src/`;
spec §4.3 says: pop the class free list if non-empty; with `NoReserve` and
an empty list return null without contacting the memory provider;
otherwise a provider failure surfaces as null.  Returns the result and
whether the provider was called; `provider` is the provider's response. -/
def LargeAlloc.alloc (allow : AllowReserve) (freeList : List Nat)
    (provider : Option Nat) : Option Nat × Bool :=
  match freeList with
  | b :: _ => (some b, false)
  | [] =>
    match allow with
    | AllowReserve.NoReserve => (none, false)
    | AllowReserve.YesReserve => (provider, true)

/-- `Allocator::large_alloc(size)` (`alloc.h:1029-1051`): call the large
allocator, then stamp the pagemap via `set_large_size(p, size)` —
unconditionally, even when `p` is null (`nullptr` is address 0).  Returns
(result, pagemap after, provider-called flag). -/
def Allocator.large_alloc (allow : AllowReserve) (freeList : List Nat)
    (provider : Option Nat) (pm : PM) (size : Nat) : Option Nat × PM × Bool :=
  let r := LargeAlloc.alloc allow freeList provider
  let pm2 := set_large_size pm (r.1.getD 0) size
  (r.1, pm2, r.2)

/-! ### Remote cache (`alloc.h:503-597`)

A freed remote object carries the header `{next, target_id, sizeclass}`;
we model a node by its target id, sizeclass and address.  The
`REMOTE_SLOTS = 2^REMOTE_SLOT_BITS` bucket lists are a `List` of lists
(index = slot); `REMOTE_SLOT_BITS` is the parameter `rsb`
(`REMOTE_MASK = 2^rsb - 1`, so `x & REMOTE_MASK = x % 2^rsb`). -/

structure RNode where
  target : Nat
  sc : Nat
  addr : Nat
deriving DecidableEq

structure RCache where
  size : Nat
  buckets : List (List RNode)
deriving DecidableEq

/-- `RemoteCache::dealloc(target_id, p, sizeclass)` (`alloc.h:529-541`):
grow the byte count by the class size and append the node to
`list[target_id & REMOTE_MASK]`. -/
def RCache.dealloc (T : Nat → Nat) (rsb : Nat) (c : RCache) (n : RNode) : RCache :=
  let slot := n.target % 2 ^ rsb
  { size := c.size + sizeclass_to_size T n.sc,
    buckets := c.buckets.set slot (c.buckets.getD slot [] ++ [n]) }

/-- The foreign-bucket flush inside one iteration of `RemoteCache::post`
(`alloc.h:554-569`): for every slot `i ≠ my_slot` with a non-empty list,
send the whole chain (to the mailbox of the first node's owner) and clear
the slot.  `i` is the index of the first bucket of `bs`.  Returns the
updated buckets and the chains sent, in slot order. -/
def flush_go (my_slot : Nat) : List (List RNode) → Nat → List (List RNode) × List (List RNode)
  | [], _ => ([], [])
  | b :: bs, i =>
    let r := flush_go my_slot bs (i + 1)
    if i = my_slot then (b :: r.1, r.2)
    else if b = [] then (b :: r.1, r.2)
    else ([] :: r.1, b :: r.2)

/-- The redistribution step of `RemoteCache::post` (`alloc.h:584-594`):
append each node of the snapshot `r` to `list[(target_id >> shift) &
REMOTE_MASK]`, in order. -/
def redistribute (rsb shift : Nat) : List RNode → List (List RNode) → List (List RNode)
  | [], bs => bs
  | n :: r, bs =>
    let slot := n.target / 2 ^ shift % 2 ^ rsb
    redistribute rsb shift r (bs.set slot (bs.getD slot [] ++ [n]))

/-- The `while (true)` loop of `RemoteCache::post` (`alloc.h:550-595`),
with explicit fuel (the C loop is unbounded; `none` means the fuel ran out
before the loop exited).  Each iteration: flush every foreign bucket; if
`list[my_slot]` is empty, stop; otherwise snapshot and clear it, advance
`shift` by `REMOTE_SLOT_BITS`, and redistribute the snapshot by the next
bit-slice of the target id. -/
def post_loop (rsb id : Nat) : Nat → Nat → List (List RNode) →
    Option (List (List RNode) × List (List RNode))
  | 0, _, _ => none
  | fuel + 1, shift, bs =>
    let my_slot := id / 2 ^ shift % 2 ^ rsb
    let f := flush_go my_slot bs 0
    if f.1.getD my_slot [] = [] then some (f.1, f.2)
    else
      let r := f.1.getD my_slot []
      let bs2 := f.1.set my_slot []
      match post_loop rsb id fuel (shift + rsb) (redistribute rsb (shift + rsb) r bs2) with
      | none => none
      | some p => some (p.1, f.2 ++ p.2)

/-- `RemoteCache::post(id)` (`alloc.h:543-596`): zero the byte count and
run the loop from `shift = 0`.  Returns the final cache and the list of
chains pushed to target mailboxes. -/
def RCache.post (rsb id fuel : Nat) (c : RCache) : Option (RCache × List (List RNode)) :=
  match post_loop rsb id fuel 0 c.buckets with
  | none => none
  | some p => some ({ size := 0, buckets := p.1 }, p.2)

/-! ### Message-queue draining (`alloc.h:696-746`)

The mailbox is the MPSC queue of `remoteallocator.h` (not under `src/`).
Modelled from the spec (§4.7/§5): a FIFO of freed-object nodes, containing
the sentinel stub node besides real nodes; a pop yields the front node or
reports empty. -/

inductive MNode
  | stub
  | node (n : RNode)
deriving DecidableEq

/-- Allocator state as observed by the drain loop: the outgoing cache plus
the log of local dispatches performed (address, sizeclass), split by the
path taken. -/
structure AState where
  cache : RCache
  smallDisp : List (Nat × Nat)
  medDisp : List (Nat × Nat)
deriving DecidableEq

/-- `Allocator::handle_dealloc_remote(p)` (`alloc.h:696-717`): skip the
stub; if the node's `target_id` is ours, dispatch to `small_dealloc`
(class below `NUM_SMALL_CLASSES = nsc`) or `medium_dealloc` by the cached
sizeclass; otherwise queue it in the outgoing cache for forwarding. -/
def handle_dealloc_remote (T : Nat → Nat) (rsb nsc myid : Nat) (st : AState)
    (m : MNode) : AState :=
  match m with
  | MNode.stub => st
  | MNode.node n =>
    if n.target = myid then
      if n.sc < nsc then
        { st with smallDisp := st.smallDisp ++ [(n.addr, n.sc)] }
      else
        { st with medDisp := st.medDisp ++ [(n.addr, n.sc)] }
    else
      { st with cache := st.cache.dealloc T rsb n }

/-- The `for` loop of `Allocator::handle_message_queue_inner`
(`alloc.h:721-729`): up to `REMOTE_BATCH` pops; a failed pop (empty queue)
breaks the loop; each popped entry is handed to
`handle_dealloc_remote`. -/
def drain (T : Nat → Nat) (rsb nsc myid : Nat) :
    Nat → List MNode → AState → List MNode × AState
  | 0, q, st => (q, st)
  | batch + 1, q, st =>
    match q with
    | [] => ([], st)
    | m :: rest => drain T rsb nsc myid batch rest (handle_dealloc_remote T rsb nsc myid st m)

/-- `Allocator::handle_message_queue_inner` (`alloc.h:719-737`): drain up
to `batch = REMOTE_BATCH` entries, then post the outgoing cache exactly
when its byte count has reached `threshold = REMOTE_CACHE`.  The `Bool`
records whether `post` was invoked; `none` means `post` was invoked but
its fuel ran out. -/
def handle_message_queue_inner (T : Nat → Nat) (rsb nsc myid batch threshold postFuel : Nat)
    (q : List MNode) (st : AState) : Option (List MNode × AState × Bool) :=
  let d := drain T rsb nsc myid batch q st
  if d.2.cache.size < threshold then some (d.1, d.2, false)
  else
    match d.2.cache.post rsb myid postFuel with
    | none => none
    | some p => some (d.1, { d.2 with cache := p.1 }, true)

/-! ### Small deallocation bookkeeping (`alloc.h:876-939`)

`slab.h`/`superslab.h` are not under `src/`; the slab engine's verdicts —
the returned `Superslab::Action` and the superslab's post-free status —
are inputs here (modelled from the spec §4.4: the slab reports one of
three actions, and the status is a function of which slabs are free).
Superslabs are identified by their base address. -/

inductive SuperStatus
  | Full
  | Available
  | OnlyShortSlabAvailable
  | Empty
deriving DecidableEq

inductive SlabAction
  | NoSlabReturn
  | NoStatusChange
  | StatusChange
deriving DecidableEq

inductive DecommitStrategy
  | DecommitNone
  | DecommitSuper
  | DecommitAll
deriving DecidableEq

/-- Allocator state touched by `small_dealloc`: the two superslab lists,
the pagemap, the large allocator's class-0 free list, and the log of
decommit hints issued (address, length). -/
structure SDState where
  super_available : List Nat
  super_only_short_available : List Nat
  pm : PM
  largeFree0 : List Nat
  decommits : List (Nat × Nat)

/-- `Allocator::small_dealloc(super, p, sizeclass)` after the slab's own
free (`alloc.h:876-939`), as a transition on the bookkeeping state.
`was_full` is `super->is_full()` sampled before the free, `a` the action
the slab reported, `status` the superslab's status after the free.
`none` models the `error("Unreachable")` on `Full`. -/
def small_dealloc (strat : DecommitStrategy) (st : SDState) (super : Nat)
    (was_full : Bool) (a : SlabAction) (status : SuperStatus) : Option SDState :=
  if a = SlabAction.NoSlabReturn then some st
  else if a = SlabAction.NoStatusChange then some st
  else
    match status with
    | SuperStatus.Full => none
    | SuperStatus.Available =>
      if was_full then
        some { st with super_available := super :: st.super_available }
      else
        some { st with
          super_only_short_available := st.super_only_short_available.erase super,
          super_available := super :: st.super_available }
    | SuperStatus.OnlyShortSlabAvailable =>
      some { st with super_only_short_available := super :: st.super_only_short_available }
    | SuperStatus.Empty =>
      let st1 := { st with super_available := st.super_available.erase super }
      let st2 :=
        if strat = DecommitStrategy.DecommitSuper then
          { st1 with decommits :=
              st1.decommits ++ [(super + OS_PAGE_SIZE, SUPERSLAB_SIZE - OS_PAGE_SIZE)] }
        else st1
      some { st2 with
        pm := pmSet st2.pm super PMNotOurs,
        largeFree0 := super :: st2.largeFree0 }

/-- A concrete bookkeeping state used to exercise `small_dealloc`: two
superslabs (7 and 0) in `super_available`, superslab tags everywhere. -/
def sdWit : SDState := ⟨[7, 0], [], fun _ => PMSuperslab, [], []⟩

/-- The state after `small_dealloc` retires the empty superslab 0 from
`sdWit` (decommit strategy `DecommitNone`). -/
def sdWit2 : SDState := ⟨[7], [], pmSet (fun _ => PMSuperslab) 0 PMNotOurs, [0], []⟩

/-! ## Theorems -/

theorem SUPERSLAB_SIZE_pos : 0 < SUPERSLAB_SIZE := by decide

theorem aligned_div (n : Nat) : n * SUPERSLAB_SIZE / SUPERSLAB_SIZE = n :=
  Nat.mul_div_cancel n SUPERSLAB_SIZE_pos

theorem pmSet_eq (pm : PM) (p v : Nat) : pmSet pm p v (p / SUPERSLAB_SIZE) = v := by
  simp [pmSet]

theorem pmSet_ne (pm : PM) (p v j : Nat) (h : j ≠ p / SUPERSLAB_SIZE) :
    pmSet pm p v j = pm j := by
  simp [pmSet, h]

/-- Indices outside `[n + 2^i, n + 2^(i+c))` are untouched by the slide
loop started at byte address `(n + 2^i) * SUPERSLAB_SIZE` with loop
counter `i` and `c` remaining iterations. -/
theorem set_large_slide_out : ∀ (c : Nat) (pm : PM) (i n j : Nat),
    (j < n + 2 ^ i ∨ n + 2 ^ (i + c) ≤ j) →
    set_large_slide pm ((n + 2 ^ i) * SUPERSLAB_SIZE) i c j = pm j := by
  intro c
  induction c with
  | zero => intro pm i n j h; rfl
  | succ c ih =>
    intro pm i n j h
    have hq : (2:Nat) ^ (i + 1) = 2 ^ i + 2 ^ i := by rw [pow_succ]; omega
    have hr : (2:Nat) ^ (i + 1) ≤ 2 ^ (i + (c + 1)) :=
      Nat.pow_le_pow_right (by omega) (by omega)
    have haddr : (n + 2 ^ i) * SUPERSLAB_SIZE + SUPERSLAB_SIZE * 2 ^ i
        = (n + 2 ^ (i + 1)) * SUPERSLAB_SIZE := by rw [hq]; ring
    have h2 : j < n + 2 ^ (i + 1) ∨ n + 2 ^ ((i + 1) + c) ≤ j := by
      rcases h with h | h
      · have hmono : (2:Nat) ^ i ≤ 2 ^ (i + 1) :=
          Nat.pow_le_pow_right (by omega) (by omega)
        exact Or.inl (by omega)
      · right
        have he : i + (c + 1) = (i + 1) + c := by omega
        rw [← he]; exact h
    simp only [set_large_slide]
    rw [haddr, ih _ (i + 1) n j h2]
    simp only [pmSetRange, aligned_div]
    have hno : ¬ (n + 2 ^ i ≤ j ∧ j < n + 2 ^ i + 2 ^ i) := by
      clear haddr
      rcases h with h | h
      · omega
      · have hb : n + 2 ^ (i + 1) ≤ j := le_trans (Nat.add_le_add_left hr n) h
        omega
    rw [if_neg hno]

/-- Indices inside the `t`-th run, i.e. in `[n + 2^(i+t), n + 2^(i+t+1))`
with `t < c`, receive the tag `64 + (i + t) + SUPERSLAB_BITS`. -/
theorem set_large_slide_in : ∀ (c : Nat) (pm : PM) (i n t j : Nat),
    t < c → n + 2 ^ (i + t) ≤ j → j < n + 2 ^ (i + t + 1) →
    set_large_slide pm ((n + 2 ^ i) * SUPERSLAB_SIZE) i c j
      = 64 + (i + t) + SUPERSLAB_BITS := by
  intro c
  induction c with
  | zero => intro pm i n t j ht _ _; omega
  | succ c ih =>
    intro pm i n t j ht h1 h2
    have hq : (2:Nat) ^ (i + 1) = 2 ^ i + 2 ^ i := by rw [pow_succ]; omega
    have haddr : (n + 2 ^ i) * SUPERSLAB_SIZE + SUPERSLAB_SIZE * 2 ^ i
        = (n + 2 ^ (i + 1)) * SUPERSLAB_SIZE := by rw [hq]; ring
    simp only [set_large_slide]
    rw [haddr]
    cases t with
    | zero =>
      have h1'' : n + 2 ^ i ≤ j := by simpa using h1
      have h2'' : j < n + 2 ^ (i + 1) := by simpa using h2
      rw [set_large_slide_out c _ (i + 1) n j (Or.inl h2'')]
      simp only [pmSetRange, aligned_div]
      rw [if_pos ⟨h1'', by omega⟩]
      simp
    | succ t' =>
      have h1' : n + 2 ^ ((i + 1) + t') ≤ j := by
        have he : i + (t' + 1) = (i + 1) + t' := by omega
        rwa [he] at h1
      have h2' : j < n + 2 ^ ((i + 1) + t' + 1) := by
        have he : i + (t' + 1) + 1 = (i + 1) + t' + 1 := by omega
        rwa [he] at h2
      have hres := ih
        (pmSetRange pm ((n + 2 ^ i) * SUPERSLAB_SIZE) (64 + i + SUPERSLAB_BITS) (2 ^ i))
        (i + 1) n t' j (by omega) h1' h2'
      rw [hres]
      omega

/-- C1, counterexample: at `p = 0`, `size = 2^26` (so `k = 26`,
`SUPERSLAB_BITS = 24`), the source writes tag `89 = 64 + 1 +
SUPERSLAB_BITS` at superslab index 3, whereas the write-set asserted by
the claim leaves index 3 at `PMNotOurs`. -/
theorem set_large_size_claim_false :
    set_large_size (fun _ => PMNotOurs) 0 (2 ^ 26) 3 = 64 + 1 + SUPERSLAB_BITS ∧
    set_large_size_claimed (fun _ => PMNotOurs) 0 (2 ^ 26) 3 = PMNotOurs ∧
    64 + 1 + SUPERSLAB_BITS ≠ PMNotOurs :=
  ⟨by decide, by decide, by decide⟩

/-- C1, amended: for a superslab-aligned head `p` and `k = ⌈log₂ size⌉`,
`set_large_size(p, size)` writes `k` at the head index and, for each `i`
from `0` to `k − SUPERSLAB_BITS − 1`, the redirect value
`64 + i + SUPERSLAB_BITS` across the `2^i` slots at superslab offsets
`[2^i, 2^(i+1))` after the head; every other index is untouched. -/
theorem set_large_size_characterization (pm : PM) (p size : Nat)
    (hp : SUPERSLAB_SIZE ∣ p) :
    (set_large_size pm p size) (p / SUPERSLAB_SIZE) = next_pow2_bits size ∧
    (∀ d i, 2 ^ i ≤ d → d < 2 ^ (i + 1) →
      i < next_pow2_bits size - SUPERSLAB_BITS →
      (set_large_size pm p size) (p / SUPERSLAB_SIZE + d) = 64 + i + SUPERSLAB_BITS) ∧
    (∀ j, p / SUPERSLAB_SIZE + 2 ^ (next_pow2_bits size - SUPERSLAB_BITS) ≤ j →
      (set_large_size pm p size) j = pm j) ∧
    (∀ j, j < p / SUPERSLAB_SIZE → (set_large_size pm p size) j = pm j) := by
  have haddr0 : p + SUPERSLAB_SIZE = (p / SUPERSLAB_SIZE + 2 ^ 0) * SUPERSLAB_SIZE := by
    rw [pow_zero, Nat.add_mul, one_mul, Nat.div_mul_cancel hp]
  refine ⟨?_, ?_, ?_, ?_⟩
  · simp only [set_large_size]
    rw [pmSet_eq]
  · intro d i hd1 hd2 hi
    have hipos : 0 < 2 ^ i := Nat.pos_pow_of_pos i (by omega)
    have hne : p / SUPERSLAB_SIZE + d ≠ p / SUPERSLAB_SIZE := by omega
    simp only [set_large_size]
    rw [pmSet_ne _ _ _ _ hne, haddr0]
    have h1 : p / SUPERSLAB_SIZE + 2 ^ (0 + i) ≤ p / SUPERSLAB_SIZE + d := by
      simpa using Nat.add_le_add_left hd1 (p / SUPERSLAB_SIZE)
    have h2 : p / SUPERSLAB_SIZE + d < p / SUPERSLAB_SIZE + 2 ^ (0 + i + 1) := by
      simpa using Nat.add_lt_add_left hd2 (p / SUPERSLAB_SIZE)
    have hres := set_large_slide_in (next_pow2_bits size - SUPERSLAB_BITS)
      (pmSet pm p (next_pow2_bits size)) 0 (p / SUPERSLAB_SIZE) i
      (p / SUPERSLAB_SIZE + d) hi h1 h2
    rw [hres]
    simp
  · intro j hj
    have hpos : 0 < 2 ^ (next_pow2_bits size - SUPERSLAB_BITS) :=
      Nat.pos_pow_of_pos _ (by omega)
    have hne : j ≠ p / SUPERSLAB_SIZE := by omega
    simp only [set_large_size]
    rw [pmSet_ne _ _ _ _ hne, haddr0]
    rw [set_large_slide_out (next_pow2_bits size - SUPERSLAB_BITS)
      (pmSet pm p (next_pow2_bits size)) 0 (p / SUPERSLAB_SIZE) j
      (Or.inr (by simpa using hj))]
    rw [pmSet_ne _ _ _ _ hne]
  · intro j hj
    have hne : j ≠ p / SUPERSLAB_SIZE := by omega
    simp only [set_large_size]
    rw [pmSet_ne _ _ _ _ hne, haddr0]
    rw [set_large_slide_out (next_pow2_bits size - SUPERSLAB_BITS)
      (pmSet pm p (next_pow2_bits size)) 0 (p / SUPERSLAB_SIZE) j
      (Or.inl (by simpa using by omega))]
    rw [pmSet_ne _ _ _ _ hne]

/-- C1 witness: the amended characterization evaluated at `p = 0`,
`size = 2^26`, offset `d = 3` (run `i = 1`). -/
theorem set_large_size_characterization_witness :
    (set_large_size (fun _ => PMNotOurs) 0 (2 ^ 26)) (0 / SUPERSLAB_SIZE + 3)
      = 64 + 1 + SUPERSLAB_BITS :=
  (set_large_size_characterization (fun _ => PMNotOurs) 0 (2 ^ 26)
    (dvd_zero SUPERSLAB_SIZE)).2.1 3 1 (by decide) (by decide) (by decide)

/-! ### Size-class search lemmas (for C9) -/

theorem sc_search_ge (T : Nat → Nat) (s : Nat) :
    ∀ (k c0 : Nat), c0 ≤ sc_search T s k c0 := by
  intro k
  induction k with
  | zero => intro c0; exact le_refl _
  | succ k ih =>
    intro c0
    simp only [sc_search]
    split
    · exact le_refl _
    · exact le_trans (by omega) (ih (c0 + 1))

theorem sc_search_found (T : Nat → Nat) (s : Nat) :
    ∀ (k c0 : Nat), (∃ c, c0 ≤ c ∧ c < c0 + k ∧ s ≤ T c) →
    s ≤ T (sc_search T s k c0) := by
  intro k
  induction k with
  | zero =>
    intro c0 ⟨c, h1, h2, _⟩
    omega
  | succ k ih =>
    intro c0 ⟨c, h1, h2, h3⟩
    simp only [sc_search]
    split
    · assumption
    · refine ih (c0 + 1) ⟨c, ?_, by omega, h3⟩
      rcases Nat.eq_or_lt_of_le h1 with h | h
      · subst h; exact absurd h3 (by assumption)
      · omega

theorem sc_search_le (T : Nat → Nat) (s : Nat) :
    ∀ (k c0 c : Nat), c0 ≤ c → c < c0 + k → s ≤ T c →
    sc_search T s k c0 ≤ c := by
  intro k
  induction k with
  | zero => intro c0 c h1 h2 _; omega
  | succ k ih =>
    intro c0 c h1 h2 h3
    simp only [sc_search]
    split
    · exact h1
    · rcases Nat.eq_or_lt_of_le h1 with h | h
      · subst h; exact absurd h3 (by assumption)
      · exact ih (c0 + 1) c (by omega) (by omega) h3

/-- C9: for `0 < s ≤ maxsize` (with `maxsize` the largest class size,
`sizeclass_to_size T (num − 1)`), the round-trip laws hold:
`sizeclass_to_size (size_to_sizeclass s) ≥ s`,
`size_to_sizeclass (sizeclass_to_size (size_to_sizeclass s)) =
size_to_sizeclass s`, and `size_to_sizeclass_const` agrees with
`size_to_sizeclass`.  The table is strictly monotone in its class sizes
(spec §3: representative sizes of a fixed, ascending table). -/
theorem sizeclass_roundtrip (T : Nat → Nat) (num s : Nat)
    (hT : StrictMono T) (hs : 0 < s) (hnum : 0 < num)
    (hmax : s ≤ sizeclass_to_size T (num - 1)) :
    s ≤ sizeclass_to_size T (size_to_sizeclass T num s) ∧
    size_to_sizeclass T num (sizeclass_to_size T (size_to_sizeclass T num s))
      = size_to_sizeclass T num s ∧
    size_to_sizeclass_const T num s = size_to_sizeclass T num s := by
  have h1 : s ≤ T (sc_search T s num 0) :=
    sc_search_found T s num 0 ⟨num - 1, by omega, by omega, hmax⟩
  have hlt : sc_search T s num 0 ≤ num - 1 :=
    sc_search_le T s num 0 (num - 1) (by omega) (by omega) hmax
  refine ⟨h1, ?_, rfl⟩
  have hr_le : sc_search T (T (sc_search T s num 0)) num 0 ≤ sc_search T s num 0 :=
    sc_search_le T (T (sc_search T s num 0)) num 0 (sc_search T s num 0)
      (by omega) (by omega) (le_refl _)
  have hr_found : T (sc_search T s num 0) ≤ T (sc_search T (T (sc_search T s num 0)) num 0) :=
    sc_search_found T (T (sc_search T s num 0)) num 0
      ⟨sc_search T s num 0, by omega, by omega, le_refl _⟩
  have hnotlt : ¬ sc_search T (T (sc_search T s num 0)) num 0 < sc_search T s num 0 := by
    intro hc
    exact absurd hr_found (not_le.mpr (hT hc))
  have : sc_search T (T (sc_search T s num 0)) num 0 = sc_search T s num 0 := by omega
  exact this

/-- C9 witness: the round-trip laws at the concrete table
`tableWit`, `num = 5`, `s = 33`. -/
theorem sizeclass_roundtrip_witness :
    33 ≤ sizeclass_to_size tableWit (size_to_sizeclass tableWit 5 33) ∧
    size_to_sizeclass tableWit 5
        (sizeclass_to_size tableWit (size_to_sizeclass tableWit 5 33))
      = size_to_sizeclass tableWit 5 33 ∧
    size_to_sizeclass_const tableWit 5 33 = size_to_sizeclass tableWit 5 33 :=
  sizeclass_roundtrip tableWit 5 33
    (fun a b h => by simp only [tableWit]; omega)
    (by decide) (by decide) (by decide)

/-! ### SAFE_CLIENT checks (C2) -/

/-- C2, counterexample: with `SNMALLOC_SAFE_CLIENT` defined
(`safe_client = true`), a pointer that is not the start of an object
(`p = 16` inside the superslab at `0`, tag 30) does NOT abort, and a
misaligned medium free does NOT abort either — while with the flag
undefined both checks do abort.  This is the opposite of the claimed
polarity. -/
theorem safe_client_claim_false :
    dealloc_unknown_start_check true 30 0 16 = false ∧
    (0:Nat) ≠ 16 ∧
    dealloc_unknown_start_check false 30 0 16 = true ∧
    medium_dealloc_check true 4096 0 100 = false ∧
    medium_dealloc_check false 4096 0 100 = true := by
  refine ⟨by decide, by decide, by decide, by decide, by decide⟩

/-- C2, amended: the "must be start of object" checks run exactly when
`SNMALLOC_SAFE_CLIENT` is NOT defined: then `dealloc(p)`'s large path
aborts on a non-head pointer (tag above 64 or `p` not the superslab base)
and `medium_dealloc` aborts on a non-cell-boundary pointer; with the flag
defined, neither check is performed. -/
theorem safe_client_checks (safe : Bool) (tag super p rsize slab q : Nat) :
    (safe = false → (64 < tag ∨ super ≠ p) →
      dealloc_unknown_start_check safe tag super p = true) ∧
    (safe = true → dealloc_unknown_start_check safe tag super p = false) ∧
    (safe = false → (slab + SUPERSLAB_SIZE - q) % rsize ≠ 0 →
      medium_dealloc_check safe rsize slab q = true) ∧
    (safe = true → medium_dealloc_check safe rsize slab q = false) := by
  refine ⟨?_, ?_, ?_, ?_⟩
  · intro hs hd
    subst hs
    simp only [dealloc_unknown_start_check, Bool.false_eq_true, if_false]
    rcases hd with h | h <;> simp [h]
  · intro hs
    subst hs
    simp [dealloc_unknown_start_check]
  · intro hs hm
    subst hs
    simp only [medium_dealloc_check, is_multiple_of_sizeclass, Bool.false_eq_true, if_false]
    simpa using hm
  · intro hs
    subst hs
    simp [medium_dealloc_check]

/-- C2 witness: the amended statement applied at tag 30, `super = 0`,
`p = 16` (checks on when the flag is off, off when it is on). -/
theorem safe_client_checks_witness :
    dealloc_unknown_start_check false 30 0 16 = true ∧
    medium_dealloc_check true 4096 0 100 = false :=
  ⟨(safe_client_checks false 30 0 16 4096 0 100).1 rfl (Or.inr (by decide)),
   (safe_client_checks true 30 0 16 4096 0 100).2.2.2 rfl⟩

/-! ### Large allocation null path (C3) -/

/-- C3: evaluating `large_alloc` at the failing input — `NoReserve`, empty
class-0 free list, `size = SUPERSLAB_SIZE`, clean pagemap.  The result is
null and the provider is not called, but contrary to the claim the
function is not free of further operations on the null result: it calls
`set_large_size(nullptr, size)`, writing tag `SUPERSLAB_BITS` at pagemap
index 0 (the index of address 0). -/
theorem large_alloc_null_writes_pagemap :
    (Allocator.large_alloc AllowReserve.NoReserve [] none
      (fun _ => PMNotOurs) SUPERSLAB_SIZE).1 = none ∧
    (Allocator.large_alloc AllowReserve.NoReserve [] none
      (fun _ => PMNotOurs) SUPERSLAB_SIZE).2.2 = false ∧
    (Allocator.large_alloc AllowReserve.NoReserve [] none
      (fun _ => PMNotOurs) SUPERSLAB_SIZE).2.1 0 = SUPERSLAB_BITS ∧
    SUPERSLAB_BITS ≠ PMNotOurs := by
  refine ⟨by decide, by decide, by decide, by decide⟩

/-! ### Unknown addresses in `external_pointer` (C8) -/

/-- C8: for an address whose pagemap walk ends at tag 0 (not owned by this
allocator family), `external_pointer<Start>` returns 0 and
`external_pointer<End>` returns the all-ones pointer, without aborting. -/
theorem external_pointer_unknown (T : Nat → Nat) (st : PMState) (p : Nat)
    (h1 : st.pm (p / SUPERSLAB_SIZE) ≠ PMSuperslab)
    (h2 : st.pm (p / SUPERSLAB_SIZE) ≠ PMMediumslab)
    (h0 : (pm_walk st.pm 64 (p / SUPERSLAB_SIZE * SUPERSLAB_SIZE)
            (st.pm (p / SUPERSLAB_SIZE))).2 = 0) :
    external_pointer T Boundary.Start st p = 0 ∧
    external_pointer T Boundary.End st p = MAX_PTR := by
  constructor <;>
  · simp only [external_pointer]
    rw [if_neg h1, if_neg h2, if_pos h0]
    simp

/-- C8 witness: a clean pagemap at the arbitrary address 12345. -/
theorem external_pointer_unknown_witness :
    external_pointer (fun _ => 16) Boundary.Start
      ⟨fun _ => PMNotOurs, fun _ => 0, fun _ => 0⟩ 12345 = 0 ∧
    external_pointer (fun _ => 16) Boundary.End
      ⟨fun _ => PMNotOurs, fun _ => 0, fun _ => 0⟩ 12345 = MAX_PTR :=
  external_pointer_unknown (fun _ => 16) ⟨fun _ => PMNotOurs, fun _ => 0, fun _ => 0⟩
    12345 (by decide) (by decide) (by decide)

/-! ### External pointer boundaries (C4) -/

theorem SUPERSLAB_BITS_lit : SUPERSLAB_BITS = 24 := rfl

theorem SLAB_SIZE_lit : SLAB_SIZE = 65536 := by decide

theorem SUPERSLAB_SIZE_lit : SUPERSLAB_SIZE = 16777216 := by decide

theorem PMSuperslab_lit : PMSuperslab = 1 := rfl

theorem PMMediumslab_lit : PMMediumslab = 2 := rfl

/-- The helper `external_pointer(p, sizeclass, end_point)` recovers the
cell boundaries when the cell grid of size `rsize` is anchored at
`end_point + 1` (the byte past the slab) and `p = B + i` lies inside the
cell starting at `B`. -/
theorem external_pointer_sc_boundary (T : Nat → Nat) (sc B i E q : Nat)
    (hq : 1 ≤ q) (hE : E + 1 = B + q * sizeclass_to_size T sc)
    (hi : i < sizeclass_to_size T sc)
    (hbound : B + sizeclass_to_size T sc ≤ 2 ^ 64) :
    external_pointer_sc T Boundary.Start (B + i) sc E = B ∧
    external_pointer_sc T Boundary.End (B + i) sc E
      = B + sizeclass_to_size T sc - 1 := by
  have hr : 0 < sizeclass_to_size T sc := by omega
  have hqr : q * sizeclass_to_size T sc
      = (q - 1) * sizeclass_to_size T sc + sizeclass_to_size T sc := by
    have hq1 : q = (q - 1) + 1 := by omega
    conv_lhs => rw [hq1]
    rw [Nat.add_mul, one_mul]
  have hoff : E - (B + i) = (sizeclass_to_size T sc - 1 - i)
      + (q - 1) * sizeclass_to_size T sc := by omega
  have hdiv : (E - (B + i)) / sizeclass_to_size T sc = q - 1 := by
    rw [hoff, Nat.add_mul_div_right _ _ hr, Nat.div_eq_of_lt (by omega)]
    omega
  have key : E + 1 = B + (q - 1) * sizeclass_to_size T sc + sizeclass_to_size T sc := by
    rw [hE, hqr]; ring
  have keyz : (E : Int) + 1
      = (B : Int) + ((q - 1) * sizeclass_to_size T sc : Nat) + (sizeclass_to_size T sc : Nat) := by
    exact_mod_cast key
  constructor
  · simp only [external_pointer_sc, round_by_sizeclass]
    rw [hdiv, if_neg (by simp)]
    have hval : (E : Int) - (sizeclass_to_size T sc : Nat) + 1
        - ((q - 1) * sizeclass_to_size T sc : Nat) = (B : Int) := by omega
    rw [hval, Int.emod_eq_of_lt (by omega) (by
      have hb : B < 2 ^ 64 := by omega
      exact_mod_cast hb)]
    simp
  · simp only [external_pointer_sc, round_by_sizeclass]
    rw [hdiv]
    simp only [if_true]
    have hval : (E : Int) - ((q - 1) * sizeclass_to_size T sc : Nat)
        = ((B + sizeclass_to_size T sc - 1 : Nat) : Int) := by
      have hc : ((B + sizeclass_to_size T sc - 1 : Nat) : Int)
          = (B : Int) + (sizeclass_to_size T sc : Nat) - 1 := by omega
      rw [hc]
      omega
    rw [hval, Int.emod_eq_of_lt (by omega) (by
      have hb : B + sizeclass_to_size T sc - 1 < 2 ^ 64 := by omega
      exact_mod_cast hb)]
    simp

/-- Once the tag is at most 64, the walk stops immediately, whatever the
remaining fuel. -/
theorem pm_walk_stop (pm : PM) (fuel ss t : Nat) (ht : t ≤ 64) :
    pm_walk pm fuel ss t = (ss, t) := by
  cases fuel with
  | zero => rfl
  | succ f =>
    simp only [pm_walk]
    rw [if_neg (by omega)]

/-- The redirect walk over a well-formed slide (head tag `k` at superslab
index `n`, redirect tags `64 + i + SUPERSLAB_BITS` over offsets
`[2^i, 2^(i+1))`) returns the head from any offset `d` below the
allocation's superslab count, given fuel at least the bit-length bound
`m`. -/
theorem pm_walk_slide (pm : PM) (n k : Nat)
    (hk1 : SUPERSLAB_BITS ≤ k) (hk2 : k ≤ 64)
    (hhead : pm n = k)
    (hslide : ∀ d i, 2 ^ i ≤ d → d < 2 ^ (i + 1) → i < k - SUPERSLAB_BITS →
      pm (n + d) = 64 + i + SUPERSLAB_BITS) :
    ∀ (m d fuel : Nat), d < 2 ^ m → m ≤ fuel → d < 2 ^ (k - SUPERSLAB_BITS) →
    pm_walk pm fuel ((n + d) * SUPERSLAB_SIZE) (pm (n + d))
      = (n * SUPERSLAB_SIZE, k) := by
  intro m
  induction m with
  | zero =>
    intro d fuel hd _ _
    have hd0 : d = 0 := by
      have h1 : (2:Nat) ^ 0 = 1 := pow_zero 2
      omega
    subst hd0
    rw [Nat.add_zero, hhead]
    exact pm_walk_stop pm fuel (n * SUPERSLAB_SIZE) k hk2
  | succ m ih =>
    intro d fuel hd hfuel hdk
    rcases Nat.eq_zero_or_pos d with hd0 | hdpos
    · subst hd0
      rw [Nat.add_zero, hhead]
      exact pm_walk_stop pm fuel (n * SUPERSLAB_SIZE) k hk2
    · have hlog1 : 2 ^ Nat.log 2 d ≤ d := Nat.pow_log_le_self 2 (by omega)
      have hlog2 : d < 2 ^ (Nat.log 2 d + 1) := Nat.lt_pow_succ_log_self (by omega) d
      have hlogk : Nat.log 2 d < k - SUPERSLAB_BITS := by
        by_contra hcon
        push_neg at hcon
        have hle : (2:Nat) ^ (k - SUPERSLAB_BITS) ≤ 2 ^ Nat.log 2 d :=
          Nat.pow_le_pow_right (by omega) hcon
        omega
      have htag := hslide d (Nat.log 2 d) hlog1 hlog2 hlogk
      obtain ⟨f, rfl⟩ : ∃ f, fuel = f + 1 := ⟨fuel - 1, by omega⟩
      rw [htag]
      simp only [pm_walk]
      rw [if_pos (show 64 < 64 + Nat.log 2 d + SUPERSLAB_BITS by
        rw [SUPERSLAB_BITS_lit]; omega)]
      have hsub : (n + d) * SUPERSLAB_SIZE
            - 2 ^ (64 + Nat.log 2 d + SUPERSLAB_BITS - 64)
          = (n + (d - 2 ^ Nat.log 2 d)) * SUPERSLAB_SIZE := by
        have he : 64 + Nat.log 2 d + SUPERSLAB_BITS - 64
            = Nat.log 2 d + SUPERSLAB_BITS := by omega
        rw [he, pow_add]
        have hssfact : (2:Nat) ^ SUPERSLAB_BITS = SUPERSLAB_SIZE := rfl
        rw [hssfact, ← Nat.sub_mul]
        congr 1
        omega
      rw [hsub, aligned_div]
      have hpow2 : (2:Nat) ^ (Nat.log 2 d + 1)
          = 2 ^ Nat.log 2 d + 2 ^ Nat.log 2 d := by
        rw [pow_succ]; omega
      have hlogm : Nat.log 2 d < m + 1 := by
        by_contra hcon
        push_neg at hcon
        have hle : (2:Nat) ^ (m + 1) ≤ 2 ^ Nat.log 2 d :=
          Nat.pow_le_pow_right (by omega) hcon
        omega
      have h2m : (2:Nat) ^ Nat.log 2 d ≤ 2 ^ m :=
        Nat.pow_le_pow_right (by omega) (by omega)
      exact ih (d - 2 ^ Nat.log 2 d) f (by omega) (by omega) (by omega)

/-- C4, small path: `external_pointer` returns the cell boundaries for a
live small allocation. -/
theorem external_pointer_small_case (T : Nat → Nat) (st : PMState) (B S i : Nat)
    (hi : i < S) (hb64 : B + S ≤ 2 ^ 64) (h : SmallLive T st B S) :
    external_pointer T Boundary.Start st (B + i) = B ∧
    external_pointer T Boundary.End st (B + i) = B + S - 1 := by
  obtain ⟨sc, hT, hS, hpm, hmeta, hsl, hdvd⟩ := h
  have hslab_i : (B + i) / SLAB_SIZE = B / SLAB_SIZE := by
    have h1 : B / SLAB_SIZE ≤ (B + i) / SLAB_SIZE := Nat.div_le_div_right (by omega)
    have h2 : (B + i) / SLAB_SIZE ≤ (B + S - 1) / SLAB_SIZE :=
      Nat.div_le_div_right (by omega)
    omega
  have hfact : SUPERSLAB_SIZE = SLAB_SIZE * 256 := by decide
  have hxdiv : ∀ x : Nat, x / SUPERSLAB_SIZE = x / SLAB_SIZE / 256 := by
    intro x
    rw [hfact, ← Nat.div_div_eq_div_mul]
  have hss_i : (B + i) / SUPERSLAB_SIZE = B / SUPERSLAB_SIZE := by
    rw [hxdiv, hxdiv, hslab_i]
  obtain ⟨q, hqe⟩ := hdvd
  have hBub : B / SLAB_SIZE * SLAB_SIZE ≤ B := Nat.div_mul_le_self B SLAB_SIZE
  have hBlt : B < B / SLAB_SIZE * SLAB_SIZE + SLAB_SIZE := by
    rw [SLAB_SIZE_lit]
    omega
  have hslpos : 0 < SLAB_SIZE := by decide
  have hq1 : 1 ≤ q := by
    rcases Nat.eq_zero_or_pos q with h0 | h1
    · subst h0
      simp only [Nat.mul_zero] at hqe
      omega
    · exact h1
  have hE : (B / SLAB_SIZE * SLAB_SIZE + SLAB_SIZE - 1) + 1
      = B + q * sizeclass_to_size T sc := by
    rw [hT]
    have hcomm : q * S = S * q := Nat.mul_comm q S
    omega
  have hhelp := external_pointer_sc_boundary T sc B i
    (B / SLAB_SIZE * SLAB_SIZE + SLAB_SIZE - 1) q hq1 hE (by omega) (by omega)
  constructor
  · simp only [external_pointer]
    rw [hss_i, hpm, if_pos rfl, hslab_i, hmeta]
    exact hhelp.1
  · simp only [external_pointer]
    rw [hss_i, hpm, if_pos rfl, hslab_i, hmeta]
    have h2 := hhelp.2
    rw [hT] at h2
    exact h2

/-- C4, medium path: `external_pointer` returns the cell boundaries for a
live medium allocation. -/
theorem external_pointer_medium_case (T : Nat → Nat) (st : PMState) (B S i : Nat)
    (hi : i < S) (hb64 : B + S ≤ 2 ^ 64) (h : MediumLive T st B S) :
    external_pointer T Boundary.Start st (B + i) = B ∧
    external_pointer T Boundary.End st (B + i) = B + S - 1 := by
  obtain ⟨sc, hT, hS, hpm, hmed, hsl, hdvd⟩ := h
  have hss_i : (B + i) / SUPERSLAB_SIZE = B / SUPERSLAB_SIZE := by
    have h1 : B / SUPERSLAB_SIZE ≤ (B + i) / SUPERSLAB_SIZE :=
      Nat.div_le_div_right (by omega)
    have h2 : (B + i) / SUPERSLAB_SIZE ≤ (B + S - 1) / SUPERSLAB_SIZE :=
      Nat.div_le_div_right (by omega)
    omega
  obtain ⟨q, hqe⟩ := hdvd
  have hBub : B / SUPERSLAB_SIZE * SUPERSLAB_SIZE ≤ B :=
    Nat.div_mul_le_self B SUPERSLAB_SIZE
  have hBlt : B < B / SUPERSLAB_SIZE * SUPERSLAB_SIZE + SUPERSLAB_SIZE := by
    rw [SUPERSLAB_SIZE_lit]
    omega
  have hq1 : 1 ≤ q := by
    rcases Nat.eq_zero_or_pos q with h0 | h1
    · subst h0
      simp only [Nat.mul_zero] at hqe
      omega
    · exact h1
  have hE : (B / SUPERSLAB_SIZE * SUPERSLAB_SIZE + SUPERSLAB_SIZE - 1) + 1
      = B + q * sizeclass_to_size T sc := by
    rw [hT]
    have hcomm : q * S = S * q := Nat.mul_comm q S
    have hsspos : 0 < SUPERSLAB_SIZE := SUPERSLAB_SIZE_pos
    omega
  have hhelp := external_pointer_sc_boundary T sc B i
    (B / SUPERSLAB_SIZE * SUPERSLAB_SIZE + SUPERSLAB_SIZE - 1) q hq1 hE (by omega) (by omega)
  constructor
  · simp only [external_pointer]
    rw [hss_i, hpm, if_neg (by decide), if_pos rfl, hmed]
    exact hhelp.1
  · simp only [external_pointer]
    rw [hss_i, hpm, if_neg (by decide), if_pos rfl, hmed]
    have h2 := hhelp.2
    rw [hT] at h2
    exact h2

/-- C4, large path: `external_pointer` walks the redirect slide back to
the head from any interior address of a live large allocation. -/
theorem external_pointer_large_case (T : Nat → Nat) (st : PMState) (B S i : Nat)
    (hi : i < S) (hb64 : B + S ≤ 2 ^ 64) (h : LargeLive st B S) :
    external_pointer T Boundary.Start st (B + i) = B ∧
    external_pointer T Boundary.End st (B + i) = B + S - 1 := by
  obtain ⟨k, hk1, hk2, hSk, hdvdB, hhead, hslide⟩ := h
  have hB : B / SUPERSLAB_SIZE * SUPERSLAB_SIZE = B := Nat.div_mul_cancel hdvdB
  have hkk : k - SUPERSLAB_BITS + SUPERSLAB_BITS = k := by omega
  have hpow : (2:Nat) ^ (k - SUPERSLAB_BITS) * SUPERSLAB_SIZE = 2 ^ k := by
    have hssfact : SUPERSLAB_SIZE = (2:Nat) ^ SUPERSLAB_BITS := rfl
    rw [hssfact, ← pow_add, hkk]
  have hd : i / SUPERSLAB_SIZE < 2 ^ (k - SUPERSLAB_BITS) := by
    rw [Nat.div_lt_iff_lt_mul SUPERSLAB_SIZE_pos, hpow]
    omega
  have hidx : (B + i) / SUPERSLAB_SIZE = B / SUPERSLAB_SIZE + i / SUPERSLAB_SIZE := by
    have hform : B + i = SUPERSLAB_SIZE * (B / SUPERSLAB_SIZE) + i := by
      conv_lhs => rw [← hB]
      ring
    rw [hform, Nat.mul_add_div SUPERSLAB_SIZE_pos]
  have htag_ne : st.pm (B / SUPERSLAB_SIZE + i / SUPERSLAB_SIZE) ≠ PMSuperslab ∧
      st.pm (B / SUPERSLAB_SIZE + i / SUPERSLAB_SIZE) ≠ PMMediumslab := by
    rw [SUPERSLAB_BITS_lit] at hk1
    rcases Nat.eq_zero_or_pos (i / SUPERSLAB_SIZE) with hd0 | hdpos
    · rw [hd0, Nat.add_zero, hhead, PMSuperslab_lit, PMMediumslab_lit]
      constructor <;> omega
    · have hlog1 : 2 ^ Nat.log 2 (i / SUPERSLAB_SIZE) ≤ i / SUPERSLAB_SIZE :=
        Nat.pow_log_le_self 2 (by omega)
      have hlog2 : i / SUPERSLAB_SIZE < 2 ^ (Nat.log 2 (i / SUPERSLAB_SIZE) + 1) :=
        Nat.lt_pow_succ_log_self (by omega) _
      have hlogk : Nat.log 2 (i / SUPERSLAB_SIZE) < k - SUPERSLAB_BITS := by
        by_contra hcon
        push_neg at hcon
        have hle : (2:Nat) ^ (k - SUPERSLAB_BITS)
            ≤ 2 ^ Nat.log 2 (i / SUPERSLAB_SIZE) :=
          Nat.pow_le_pow_right (by omega) hcon
        omega
      rw [hslide _ _ hlog1 hlog2 hlogk, PMSuperslab_lit, PMMediumslab_lit]
      constructor <;> omega
  have hwalk := pm_walk_slide st.pm (B / SUPERSLAB_SIZE) k hk1 hk2 hhead hslide
    64 (i / SUPERSLAB_SIZE) 64
    (lt_of_lt_of_le hd (Nat.pow_le_pow_right (by omega) (by
      rw [SUPERSLAB_BITS_lit]; omega)))
    (le_refl 64) hd
  have hk0 : k ≠ 0 := by
    rw [SUPERSLAB_BITS_lit] at hk1
    omega
  constructor
  · simp only [external_pointer]
    rw [hidx, if_neg htag_ne.1, if_neg htag_ne.2, hwalk]
    simp [hk0, hB]
  · simp only [external_pointer]
    rw [hidx, if_neg htag_ne.1, if_neg htag_ne.2, hwalk]
    rw [hSk] at hb64
    have hkp : 0 < 2 ^ k := Nat.pos_pow_of_pos k (by omega)
    simp [hk0, hSk]
    rw [hB]
    exact Nat.mod_eq_of_lt (by omega)

/-- C4: for every live allocation at base `B` with allocated size `S` —
small, medium, or large — and every offset `i < S`,
`external_pointer<Start>(B + i) = B` and
`external_pointer<End>(B + i) = B + S - 1`. -/
theorem external_pointer_boundaries (T : Nat → Nat) (st : PMState) (B S i : Nat)
    (hi : i < S) (hb64 : B + S ≤ 2 ^ 64)
    (hlive : SmallLive T st B S ∨ MediumLive T st B S ∨ LargeLive st B S) :
    external_pointer T Boundary.Start st (B + i) = B ∧
    external_pointer T Boundary.End st (B + i) = B + S - 1 := by
  rcases hlive with h | h | h
  · exact external_pointer_small_case T st B S i hi hb64 h
  · exact external_pointer_medium_case T st B S i hi hb64 h
  · exact external_pointer_large_case T st B S i hi hb64 h

/-- C4 witness: a live small allocation of 16 bytes at base 32 in the
superslab at 0, queried at interior offset 5. -/
theorem external_pointer_boundaries_witness :
    external_pointer tableWit Boundary.Start stWit (32 + 5) = 32 ∧
    external_pointer tableWit Boundary.End stWit (32 + 5) = 32 + 16 - 1 :=
  external_pointer_boundaries tableWit stWit 32 16 5 (by decide) (by decide)
    (Or.inl ⟨0, by decide, by decide, by decide, by decide, by decide, by decide⟩)

/-! ### Remote cache posting (C5, C10) -/

theorem getD_set {α : Type} (l : List α) (i j : Nat) (v d : α) :
    (l.set i v).getD j d = if i = j ∧ j < l.length then v else l.getD j d := by
  induction l generalizing i j with
  | nil => simp
  | cons a l ih =>
    cases i with
    | zero =>
      cases j with
      | zero => simp
      | succ j' => simp
    | succ i' =>
      cases j with
      | zero => simp
      | succ j' =>
        simp only [List.set, List.getD_cons_succ, List.length_cons, ih]
        by_cases h : i' = j' ∧ j' < l.length
        · rw [if_pos h, if_pos (by omega)]
        · rw [if_neg h, if_neg (by omega)]

theorem flush_go_len (my : Nat) : ∀ (bs : List (List RNode)) (i : Nat),
    (flush_go my bs i).1.length = bs.length := by
  intro bs
  induction bs with
  | nil => intro i; rfl
  | cons b bs ih =>
    intro i
    simp only [flush_go]
    split
    · simp [ih]
    · split <;> simp [ih]

theorem flush_go_get (my : Nat) : ∀ (bs : List (List RNode)) (i0 j : Nat),
    (flush_go my bs i0).1.getD j [] = if i0 + j = my then bs.getD j [] else [] := by
  intro bs
  induction bs with
  | nil =>
    intro i0 j
    simp [flush_go]
  | cons b bs ih =>
    intro i0 j
    simp only [flush_go]
    cases j with
    | zero =>
      split
      · simp_all
      · split
        · simp_all
        · simp_all
    | succ j' =>
      have hrec := ih (i0 + 1) j'
      have harith : i0 + 1 + j' = i0 + (j' + 1) := by omega
      rw [harith] at hrec
      split
      · simpa using hrec
      · split
        · simpa using hrec
        · simpa using hrec

theorem redistribute_len (rsb shift : Nat) : ∀ (r : List RNode) (bs : List (List RNode)),
    (redistribute rsb shift r bs).length = bs.length := by
  intro r
  induction r with
  | nil => intro bs; rfl
  | cons n r ih =>
    intro bs
    simp only [redistribute]
    rw [ih, List.length_set]

theorem redistribute_mem_sub (rsb shift : Nat) : ∀ (r : List RNode) (bs : List (List RNode))
    (j : Nat) (n : RNode), n ∈ (redistribute rsb shift r bs).getD j [] →
    n ∈ bs.getD j [] ∨ (n ∈ r ∧ n.target / 2 ^ shift % 2 ^ rsb = j) := by
  intro r
  induction r with
  | nil =>
    intro bs j n h
    exact Or.inl h
  | cons a r ih =>
    intro bs j n h
    rcases ih _ j n h with h1 | h1
    · rw [getD_set] at h1
      by_cases hc : a.target / 2 ^ shift % 2 ^ rsb = j ∧ j < bs.length
      · rw [if_pos hc] at h1
        rcases List.mem_append.mp h1 with h2 | h2
        · exact Or.inl (hc.1 ▸ h2)
        · right
          have hn : n = a := by simpa using h2
          subst hn
          exact ⟨List.mem_cons_self _ _, hc.1⟩
      · rw [if_neg hc] at h1
        exact Or.inl h1
    · exact Or.inr ⟨List.mem_cons_of_mem _ h1.1, h1.2⟩

/-- Splitting a residue modulo `2^(s+r)` into the low `s` bits and the
next `r` bits. -/
theorem mod_pow_combine (a b s r : Nat)
    (h1 : a % 2 ^ s = b % 2 ^ s) (h2 : a / 2 ^ s % 2 ^ r = b / 2 ^ s % 2 ^ r) :
    a % 2 ^ (s + r) = b % 2 ^ (s + r) := by
  have hdecomp : ∀ x : Nat, x % 2 ^ (s + r) = x % 2 ^ s + 2 ^ s * (x / 2 ^ s % 2 ^ r) := by
    intro x
    rw [pow_add, Nat.mod_mul]
  rw [hdecomp a, hdecomp b, h1, h2]

/-- The loop of `RemoteCache::post` exits within `m + 1` iterations once
`rsb * b ≤ shift + rsb * m`, given the bucket invariant: every node agrees
with `id` on the low `shift` bits, sits in the slot named by its next
`rsb` bits, differs from `id`, and is below `2^(rsb*b)` (as `id` is). -/
theorem post_loop_term (rsb id b : Nat) (hrsb : 0 < rsb) (hid : id < 2 ^ (rsb * b)) :
    ∀ (m fuel shift : Nat) (bs : List (List RNode)),
    m + 1 ≤ fuel →
    bs.length = 2 ^ rsb →
    rsb * b ≤ shift + rsb * m →
    (∀ j n, n ∈ bs.getD j [] →
      n.target / 2 ^ shift % 2 ^ rsb = j ∧
      n.target % 2 ^ shift = id % 2 ^ shift ∧
      n.target ≠ id ∧ n.target < 2 ^ (rsb * b)) →
    post_loop rsb id fuel shift bs ≠ none := by
  intro m
  induction m with
  | zero =>
    intro fuel shift bs hfuel hlen hsh hinv
    obtain ⟨f, rfl⟩ : ∃ f, fuel = f + 1 := ⟨fuel - 1, by omega⟩
    simp only [post_loop]
    have hempty : bs.getD (id / 2 ^ shift % 2 ^ rsb) [] = [] := by
      cases hcase : bs.getD (id / 2 ^ shift % 2 ^ rsb) [] with
      | nil => rfl
      | cons n rest =>
        exfalso
        have hmem : n ∈ bs.getD (id / 2 ^ shift % 2 ^ rsb) [] := by
          rw [hcase]; exact List.mem_cons_self _ _
        obtain ⟨hslot, hmod, hne, hbound⟩ := hinv _ _ hmem
        have hle : (2:Nat) ^ (rsb * b) ≤ 2 ^ shift :=
          Nat.pow_le_pow_right (by omega) (by omega)
        rw [Nat.mod_eq_of_lt (by omega), Nat.mod_eq_of_lt (by omega)] at hmod
        exact hne hmod
    have hcond : (flush_go (id / 2 ^ shift % 2 ^ rsb) bs 0).1.getD
        (id / 2 ^ shift % 2 ^ rsb) [] = [] := by
      rw [flush_go_get]
      simpa using hempty
    rw [if_pos hcond]
    simp
  | succ m ih =>
    intro fuel shift bs hfuel hlen hsh hinv
    obtain ⟨f, rfl⟩ : ∃ f, fuel = f + 1 := ⟨fuel - 1, by omega⟩
    simp only [post_loop]
    by_cases hc : (flush_go (id / 2 ^ shift % 2 ^ rsb) bs 0).1.getD
        (id / 2 ^ shift % 2 ^ rsb) [] = []
    · rw [if_pos hc]
      simp
    · rw [if_neg hc]
      have hmul : rsb * (m + 1) = rsb * m + rsb := by ring
      have hlen2 : ((flush_go (id / 2 ^ shift % 2 ^ rsb) bs 0).1.set
          (id / 2 ^ shift % 2 ^ rsb) []).length = 2 ^ rsb := by
        rw [List.length_set, flush_go_len, hlen]
      have hrec := ih f (shift + rsb)
        (redistribute rsb (shift + rsb)
          ((flush_go (id / 2 ^ shift % 2 ^ rsb) bs 0).1.getD (id / 2 ^ shift % 2 ^ rsb) [])
          ((flush_go (id / 2 ^ shift % 2 ^ rsb) bs 0).1.set (id / 2 ^ shift % 2 ^ rsb) []))
        (by omega)
        (by rw [redistribute_len]; exact hlen2)
        (by omega)
        ?_
      · cases hres : post_loop rsb id f (shift + rsb)
            (redistribute rsb (shift + rsb)
              ((flush_go (id / 2 ^ shift % 2 ^ rsb) bs 0).1.getD (id / 2 ^ shift % 2 ^ rsb) [])
              ((flush_go (id / 2 ^ shift % 2 ^ rsb) bs 0).1.set (id / 2 ^ shift % 2 ^ rsb) [])) with
        | none => exact absurd hres hrec
        | some p => simp [hres]
      · intro j n hmem
        rcases redistribute_mem_sub rsb (shift + rsb) _ _ j n hmem with h1 | h1
        · exfalso
          rw [getD_set] at h1
          by_cases hcc : id / 2 ^ shift % 2 ^ rsb = j ∧ j < (flush_go (id / 2 ^ shift % 2 ^ rsb) bs 0).1.length
          · rw [if_pos hcc] at h1
            simp at h1
          · rw [if_neg hcc] at h1
            rw [flush_go_get] at h1
            by_cases hj : j = id / 2 ^ shift % 2 ^ rsb
            · rw [if_pos (show 0 + j = id / 2 ^ shift % 2 ^ rsb by omega)] at h1
              rw [flush_go_len, hlen] at hcc
              have hjge : ¬ j < 2 ^ rsb := fun hlt => hcc ⟨hj.symm, hlt⟩
              have hzz : bs.getD j [] = [] := List.getD_eq_default _ _ (by omega)
              rw [hzz] at h1
              simp at h1
            · rw [if_neg (by omega)] at h1
              simp at h1
        · obtain ⟨hmem_r, hslot'⟩ := h1
          have hmem_bs : n ∈ bs.getD (id / 2 ^ shift % 2 ^ rsb) [] := by
            rw [flush_go_get] at hmem_r
            simp only [Nat.zero_add, if_pos rfl] at hmem_r
            exact hmem_r
          obtain ⟨hslot, hmod, hne, hbound⟩ := hinv _ _ hmem_bs
          refine ⟨hslot', ?_, hne, hbound⟩
          exact mod_pow_combine n.target id shift rsb hmod (by rw [hslot])

/-- C5: `RemoteCache::post(id)` terminates on every cache state reachable
from `RemoteCache::dealloc` (nodes sit in the slot named by the low
`REMOTE_SLOT_BITS` bits of their target, no node targets `id` itself, and
all allocator ids fit in `b` slot-slices): fuel `b + 1` — i.e.
`⌈log₂ N_allocators / REMOTE_SLOT_BITS⌉ + 1` loop entries, the last being
the empty-check that exits — suffices. -/
theorem post_terminates (rsb b id : Nat) (c : RCache)
    (hrsb : 0 < rsb)
    (hlen : c.buckets.length = 2 ^ rsb)
    (hid : id < 2 ^ (rsb * b))
    (hplace : ∀ j n, n ∈ c.buckets.getD j [] →
      n.target % 2 ^ rsb = j ∧ n.target ≠ id ∧ n.target < 2 ^ (rsb * b)) :
    RCache.post rsb id (b + 1) c ≠ none := by
  have hloop := post_loop_term rsb id b hrsb hid b (b + 1) 0 c.buckets
    (le_refl _) hlen (by omega)
    (by
      intro j n hmem
      obtain ⟨h1, h2, h3⟩ := hplace j n hmem
      refine ⟨?_, ?_, h2, h3⟩
      · rw [pow_zero, Nat.div_one]
        exact h1
      · rw [pow_zero]
        omega)
  simp only [RCache.post]
  cases hres : post_loop rsb id (b + 1) 0 c.buckets with
  | none => exact absurd hres hloop
  | some p => simp

/-- C5 witness: a two-slot cache holding nodes for targets 1, 2 and 3 from
allocator 0 posts to completion with fuel `2 + 1`. -/
theorem post_terminates_witness :
    RCache.post 1 0 (2 + 1) ⟨7, [[⟨2, 0, 50⟩], [⟨1, 0, 60⟩, ⟨3, 0, 70⟩]]⟩ ≠ none :=
  post_terminates 1 2 0 ⟨7, [[⟨2, 0, 50⟩], [⟨1, 0, 60⟩, ⟨3, 0, 70⟩]]⟩
    (by decide) (by decide) (by decide)
    (by
      intro j n hmem
      cases j with
      | zero =>
        have hn : n = ⟨2, 0, 50⟩ := by simpa using hmem
        subst hn
        exact ⟨by decide, by decide, by decide⟩
      | succ j1 =>
        cases j1 with
        | zero =>
          have hn : n = ⟨1, 0, 60⟩ ∨ n = ⟨3, 0, 70⟩ := by simpa using hmem
          rcases hn with hn | hn <;> (subst hn; exact ⟨by decide, by decide, by decide⟩)
        | succ j2 =>
          exfalso
          have hd : ([[⟨2, 0, 50⟩], [⟨1, 0, 60⟩, ⟨3, 0, 70⟩]] :
              List (List RNode)).getD (j2 + 1 + 1) [] = [] :=
            List.getD_eq_default _ _ (by simp)
          rw [hd] at hmem
          simp at hmem)

/-- C10: whenever `RemoteCache::post` returns, the outgoing cache is fully
flushed: the byte count is zero and every one of the `REMOTE_SLOTS` bucket
lists is empty. -/
theorem post_flushes_cache (rsb id fuel : Nat) (c c' : RCache)
    (msgs : List (List RNode)) (j : Nat)
    (h : RCache.post rsb id fuel c = some (c', msgs)) :
    c'.size = 0 ∧ c'.buckets.getD j [] = [] := by
  have hloop : ∀ (fu sh : Nat) (bs res : List (List RNode)) (ms : List (List RNode)),
      post_loop rsb id fu sh bs = some (res, ms) → res.getD j [] = [] := by
    intro fu
    induction fu with
    | zero =>
      intro sh bs res ms h
      simp [post_loop] at h
    | succ f ih =>
      intro sh bs res ms h
      simp only [post_loop] at h
      by_cases hc : (flush_go (id / 2 ^ sh % 2 ^ rsb) bs 0).1.getD
          (id / 2 ^ sh % 2 ^ rsb) [] = []
      · rw [if_pos hc] at h
        injection h with h'
        injection h' with ha hb
        subst ha
        rw [flush_go_get]
        by_cases hj : 0 + j = id / 2 ^ sh % 2 ^ rsb
        · rw [if_pos hj]
          rw [flush_go_get] at hc
          have hj' : j = id / 2 ^ sh % 2 ^ rsb := by omega
          rw [hj']
          simpa using hc
        · rw [if_neg hj]
      · rw [if_neg hc] at h
        cases hres : post_loop rsb id f (sh + rsb)
            (redistribute rsb (sh + rsb)
              ((flush_go (id / 2 ^ sh % 2 ^ rsb) bs 0).1.getD (id / 2 ^ sh % 2 ^ rsb) [])
              ((flush_go (id / 2 ^ sh % 2 ^ rsb) bs 0).1.set (id / 2 ^ sh % 2 ^ rsb) [])) with
        | none =>
          rw [hres] at h
          simp at h
        | some p =>
          rw [hres] at h
          injection h with h'
          injection h' with ha hb
          subst ha
          exact ih (sh + rsb) _ _ p.2 hres
  simp only [RCache.post] at h
  cases hres : post_loop rsb id fuel 0 c.buckets with
  | none =>
    rw [hres] at h
    simp at h
  | some p =>
    rw [hres] at h
    injection h with h'
    injection h' with ha hb
    subst ha
    constructor
    · rfl
    · exact hloop fuel 0 c.buckets p.1 p.2 hres

/-- C10 witness: posting a one-node cache leaves size 0 and empty
buckets. -/
theorem post_flushes_cache_witness :
    (⟨0, [[], []]⟩ : RCache).size = 0 ∧
    (⟨0, ([[], []] : List (List RNode))⟩ : RCache).buckets.getD 1 [] = [] :=
  post_flushes_cache 1 0 2 ⟨5, [[], [⟨1, 0, 100⟩]]⟩ ⟨0, [[], []]⟩ [[⟨1, 0, 100⟩]] 1
    (by decide)

/-! ### Message-queue draining (C6) -/

theorem drain_spec (T : Nat → Nat) (rsb nsc myid : Nat) :
    ∀ (batch : Nat) (q : List MNode) (st : AState),
    (drain T rsb nsc myid batch q st).1 = q.drop (min batch q.length) ∧
    (drain T rsb nsc myid batch q st).2
      = (q.take (min batch q.length)).foldl (handle_dealloc_remote T rsb nsc myid) st := by
  intro batch
  induction batch with
  | zero =>
    intro q st
    simp [drain]
  | succ b ih =>
    intro q st
    cases q with
    | nil => simp [drain]
    | cons m rest =>
      simp only [drain]
      have hih := ih rest (handle_dealloc_remote T rsb nsc myid st m)
      have hmin : min (b + 1) (rest.length + 1) = min b rest.length + 1 := by omega
      constructor
      · rw [hih.1]
        simp [hmin]
      · rw [hih.2]
        simp [hmin]

/-- C6: each `handle_message_queue_inner` invocation pops at most
`REMOTE_BATCH` entries (exactly `min REMOTE_BATCH |queue|`); every popped
non-stub node with our `target_id` is dispatched to `small_dealloc` when
its cached sizeclass is below `NUM_SMALL_CLASSES` and to `medium_dealloc`
otherwise, while nodes with a foreign `target_id` are enqueued into the
outgoing `RemoteCache`; and after draining, `post` is invoked exactly when
the outgoing cache's byte count has reached `REMOTE_CACHE`. -/
theorem handle_message_queue_spec (T : Nat → Nat)
    (rsb nsc myid batch threshold postFuel : Nat) (q : List MNode) (st : AState) :
    (drain T rsb nsc myid batch q st).1 = q.drop (min batch q.length) ∧
    (drain T rsb nsc myid batch q st).2
      = (q.take (min batch q.length)).foldl (handle_dealloc_remote T rsb nsc myid) st ∧
    (∀ s, handle_dealloc_remote T rsb nsc myid s MNode.stub = s) ∧
    (∀ (s : AState) (n : RNode), n.target = myid → n.sc < nsc →
      handle_dealloc_remote T rsb nsc myid s (MNode.node n)
        = { s with smallDisp := s.smallDisp ++ [(n.addr, n.sc)] }) ∧
    (∀ (s : AState) (n : RNode), n.target = myid → ¬ n.sc < nsc →
      handle_dealloc_remote T rsb nsc myid s (MNode.node n)
        = { s with medDisp := s.medDisp ++ [(n.addr, n.sc)] }) ∧
    (∀ (s : AState) (n : RNode), n.target ≠ myid →
      handle_dealloc_remote T rsb nsc myid s (MNode.node n)
        = { s with cache := s.cache.dealloc T rsb n }) ∧
    ((drain T rsb nsc myid batch q st).2.cache.size < threshold →
      handle_message_queue_inner T rsb nsc myid batch threshold postFuel q st
        = some ((drain T rsb nsc myid batch q st).1,
                (drain T rsb nsc myid batch q st).2, false)) ∧
    (threshold ≤ (drain T rsb nsc myid batch q st).2.cache.size →
      handle_message_queue_inner T rsb nsc myid batch threshold postFuel q st = none ∨
      ∃ p, (drain T rsb nsc myid batch q st).2.cache.post rsb myid postFuel = some p ∧
        handle_message_queue_inner T rsb nsc myid batch threshold postFuel q st
          = some ((drain T rsb nsc myid batch q st).1,
                  { (drain T rsb nsc myid batch q st).2 with cache := p.1 }, true)) := by
  refine ⟨(drain_spec T rsb nsc myid batch q st).1,
          (drain_spec T rsb nsc myid batch q st).2, ?_, ?_, ?_, ?_, ?_, ?_⟩
  · intro s
    rfl
  · intro s n h1 h2
    simp [handle_dealloc_remote, h1, h2]
  · intro s n h1 h2
    simp [handle_dealloc_remote, h1, h2]
  · intro s n h1
    simp [handle_dealloc_remote, h1]
  · intro h
    simp only [handle_message_queue_inner]
    rw [if_pos h]
  · intro h
    simp only [handle_message_queue_inner]
    rw [if_neg (not_lt.mpr h)]
    cases hres : (drain T rsb nsc myid batch q st).2.cache.post rsb myid postFuel with
    | none => exact Or.inl rfl
    | some p => exact Or.inr ⟨p, rfl, rfl⟩

/-- C6 witness: a queue holding the stub and one own small object is
drained fully, the node is dispatched to the small path, and with the
cache below threshold no post happens. -/
theorem handle_message_queue_spec_witness :
    handle_dealloc_remote tableWit 1 10 0 ⟨⟨0, [[], []]⟩, [], []⟩ (MNode.node ⟨0, 3, 40⟩)
      = { (⟨⟨0, [[], []]⟩, [], []⟩ : AState) with smallDisp := [] ++ [(40, 3)] } ∧
    handle_message_queue_inner tableWit 1 10 0 2 1000 1
        [MNode.stub, MNode.node ⟨0, 3, 40⟩] ⟨⟨0, [[], []]⟩, [], []⟩
      = some ((drain tableWit 1 10 0 2 [MNode.stub, MNode.node ⟨0, 3, 40⟩]
                ⟨⟨0, [[], []]⟩, [], []⟩).1,
              (drain tableWit 1 10 0 2 [MNode.stub, MNode.node ⟨0, 3, 40⟩]
                ⟨⟨0, [[], []]⟩, [], []⟩).2, false) :=
  ⟨(handle_message_queue_spec tableWit 1 10 0 2 1000 1
      [MNode.stub, MNode.node ⟨0, 3, 40⟩] ⟨⟨0, [[], []]⟩, [], []⟩).2.2.2.1
      ⟨⟨0, [[], []]⟩, [], []⟩ ⟨0, 3, 40⟩ rfl (by decide),
   (handle_message_queue_spec tableWit 1 10 0 2 1000 1
      [MNode.stub, MNode.node ⟨0, 3, 40⟩] ⟨⟨0, [[], []]⟩, [], []⟩).2.2.2.2.2.2.1
      (by decide)⟩

/-! ### Small deallocation bookkeeping (C7) -/

/-- C7: when a `small_dealloc` changes the containing superslab's status,
the superslab moves to the list matching the new status — inserted into
`super_available` on `Available` (removed from
`super_only_short_available` when it was not previously full), inserted
into `super_only_short_available` on `OnlyShortSlabAvailable` — and on a
transition to `Empty` it is removed from `super_available`, all but its
first page is decommitted exactly under the `DecommitSuper` strategy, its
pagemap entry is cleared, and it is pushed onto the large allocator's
class-0 free list.  Actions `NoSlabReturn`/`NoStatusChange` leave the
bookkeeping untouched, and a `Full` status after a free is the fatal
"Unreachable". -/
theorem small_dealloc_spec (strat : DecommitStrategy) (st : SDState) (super : Nat)
    (was_full : Bool) (status : SuperStatus) (st2 : SDState) :
    small_dealloc strat st super was_full SlabAction.NoSlabReturn status = some st ∧
    small_dealloc strat st super was_full SlabAction.NoStatusChange status = some st ∧
    small_dealloc strat st super was_full SlabAction.StatusChange SuperStatus.Full = none ∧
    (small_dealloc strat st super was_full SlabAction.StatusChange status = some st2 →
      (status = SuperStatus.Available → was_full = true →
        st2 = { st with super_available := super :: st.super_available }) ∧
      (status = SuperStatus.Available → was_full = false →
        st2 = { st with
          super_only_short_available := st.super_only_short_available.erase super,
          super_available := super :: st.super_available }) ∧
      (status = SuperStatus.OnlyShortSlabAvailable →
        st2 = { st with
          super_only_short_available := super :: st.super_only_short_available }) ∧
      (status = SuperStatus.Empty →
        st2.super_available = st.super_available.erase super ∧
        st2.super_only_short_available = st.super_only_short_available ∧
        st2.pm (super / SUPERSLAB_SIZE) = PMNotOurs ∧
        st2.largeFree0 = super :: st.largeFree0 ∧
        st2.decommits = st.decommits ++
          (if strat = DecommitStrategy.DecommitSuper
           then [(super + OS_PAGE_SIZE, SUPERSLAB_SIZE - OS_PAGE_SIZE)] else []))) := by
  refine ⟨by simp [small_dealloc], by simp [small_dealloc], by simp [small_dealloc], ?_⟩
  intro h
  cases status with
  | Full =>
    exfalso
    simp [small_dealloc] at h
  | Available =>
    cases was_full with
    | true =>
      simp [small_dealloc] at h
      subst h
      refine ⟨fun _ _ => rfl, ?_, ?_, ?_⟩
      · intro _ hf
        exact absurd hf (by simp)
      · intro hstat
        exact absurd hstat (by simp)
      · intro hstat
        exact absurd hstat (by simp)
    | false =>
      simp [small_dealloc] at h
      subst h
      refine ⟨?_, fun _ _ => rfl, ?_, ?_⟩
      · intro _ hf
        exact absurd hf (by simp)
      · intro hstat
        exact absurd hstat (by simp)
      · intro hstat
        exact absurd hstat (by simp)
  | OnlyShortSlabAvailable =>
    simp [small_dealloc] at h
    subst h
    refine ⟨?_, ?_, fun _ => rfl, ?_⟩
    · intro hstat
      exact absurd hstat (by simp)
    · intro hstat
      exact absurd hstat (by simp)
    · intro hstat
      exact absurd hstat (by simp)
  | Empty =>
    simp only [small_dealloc] at h
    rw [if_neg (by simp), if_neg (by simp)] at h
    injection h with h'
    subst h'
    refine ⟨?_, ?_, ?_, fun _ => ?_⟩
    · intro hstat
      exact absurd hstat (by simp)
    · intro hstat
      exact absurd hstat (by simp)
    · intro hstat
      exact absurd hstat (by simp)
    · cases strat with
      | DecommitNone => exact ⟨rfl, rfl, pmSet_eq _ _ _, rfl, by simp⟩
      | DecommitSuper => exact ⟨rfl, rfl, pmSet_eq _ _ _, rfl, by simp⟩
      | DecommitAll => exact ⟨rfl, rfl, pmSet_eq _ _ _, rfl, by simp⟩

/-- C7 witness: retiring the empty superslab 0 under `DecommitNone`. -/
theorem small_dealloc_spec_witness :
    sdWit2.super_available = sdWit.super_available.erase 0 ∧
    sdWit2.super_only_short_available = sdWit.super_only_short_available ∧
    sdWit2.pm (0 / SUPERSLAB_SIZE) = PMNotOurs ∧
    sdWit2.largeFree0 = 0 :: sdWit.largeFree0 ∧
    sdWit2.decommits = sdWit.decommits ++
      (if DecommitStrategy.DecommitNone = DecommitStrategy.DecommitSuper
       then [(0 + OS_PAGE_SIZE, SUPERSLAB_SIZE - OS_PAGE_SIZE)] else []) :=
  ((small_dealloc_spec DecommitStrategy.DecommitNone sdWit 0 false SuperStatus.Empty
      sdWit2).2.2.2 (by rfl)).2.2.2 rfl

end SnmallocModel
